import Mathlib

/-!
Verification of the Sentinel repository (a Raft-based replicated key-value
store) against its natural-language specification.  The definitions below are
a shallow embedding of the Go source: `raft/raft.go` (consensus replica),
`kvraft` (key-value layer) and `linearizability` (history checker).  Go maps
become association lists, Go slices become `List`/`Array`, machine integers
become `Int`/`Nat` (with explicit `% 2 ^ 64` where Go overflow matters), and
channel/RPC effects are surfaced as explicit return values.
-/

namespace Sentinel

/-! ## Raft data model (raft/raft.go) -/

/-- A Raft log entry.  The Go `Command interface{}` payload is opaque to the
consensus layer; it is modelled by an `Int` payload. -/
structure LogEntry where
  index : Int
  term : Int
  command : Int
  deriving DecidableEq

/-- Zero value of `LogEntry`, used where Go would panic on an out-of-range
slice access; all theorems that depend on log contents carry well-formedness
hypotheses keeping accesses in range. -/
def entryDefault : LogEntry := ⟨0, 0, 0⟩

/-- Go constant `STATE_CANDIDATE = iota` (0). -/
def STATE_CANDIDATE : Nat := 0

/-- Go constant `STATE_FOLLOWER` (1). -/
def STATE_FOLLOWER : Nat := 1

/-- Go constant `STATE_LEADER` (2). -/
def STATE_LEADER : Nat := 2

/-- The mutable fields of the Go `Raft` struct that the claims are about.
`numPeers` is `len(rf.peers)`; channels and the persister object are effects
and are returned explicitly by the operations that touch them. -/
structure RaftState where
  state : Nat
  voteCount : Nat
  currentTerm : Int
  votedFor : Int
  log : List LogEntry
  commitIndex : Int
  lastApplied : Int
  nextIndex : List Int
  matchIndex : List Int
  me : Nat
  numPeers : Nat
  deriving DecidableEq

/-- Go `rf.log[len(rf.log)-1]`. -/
def RaftState.lastEntry (rf : RaftState) : LogEntry :=
  rf.log.getLast?.getD entryDefault

/-- Go `getLastLogIndex`. -/
def RaftState.getLastLogIndex (rf : RaftState) : Int :=
  rf.lastEntry.index

/-- Go `getLastLogTerm`. -/
def RaftState.getLastLogTerm (rf : RaftState) : Int :=
  rf.lastEntry.term

/-- Positional access `log[k]` on a Go log slice (zero value on overrun). -/
def nthEntry (log : List LogEntry) (k : Nat) : LogEntry :=
  (log[k]?).getD entryDefault

/-- Go `rf.log[0].Index`, the snapshot base index. -/
def RaftState.baseIndex (rf : RaftState) : Int :=
  (nthEntry rf.log 0).index

/-- Positional access `rf.log[i - baseIndex]` for a log index `i`. -/
def RaftState.entryAt (rf : RaftState) (i : Int) : LogEntry :=
  nthEntry rf.log (i - rf.baseIndex).toNat

/-- The step-down-to-follower move every RPC side performs on observing a
term strictly greater than `currentTerm`:
`rf.state, rf.currentTerm, rf.votedFor = STATE_FOLLOWER, term, -1`,
written inline in the Go handlers. -/
def stepDown (rf : RaftState) (term : Int) : RaftState :=
  if term > rf.currentTerm then
    { rf with state := STATE_FOLLOWER, currentTerm := term, votedFor := -1 }
  else rf

/-! ## RequestVote (raft/raft.go lines 206-262) -/

structure RequestVoteArgs where
  term : Int
  candidateId : Int
  lastLogIndex : Int
  lastLogTerm : Int
  deriving DecidableEq

structure RequestVoteReply where
  term : Int
  voteGranted : Bool
  deriving DecidableEq

/-- Go `isUpToDate`: is the candidate's log at least as new as ours. -/
def RaftState.isUpToDate (rf : RaftState) (candidateTerm candidateIndex : Int) : Bool :=
  let term := rf.getLastLogTerm
  let index := rf.getLastLogIndex
  candidateTerm > term || (candidateTerm == term && candidateIndex >= index)

/-- Go `RequestVote` handler.  The `chanGrantVote` send and the deferred
`persist()` are channel/storage effects; the returned state is what gets
persisted. -/
def RequestVote (rf : RaftState) (args : RequestVoteArgs) :
    RaftState × RequestVoteReply :=
  if args.term < rf.currentTerm then
    (rf, ⟨rf.currentTerm, false⟩)
  else
    let rf1 := stepDown rf args.term
    if (rf1.votedFor == -1 || rf1.votedFor == args.candidateId) &&
        rf1.isUpToDate args.lastLogTerm args.lastLogIndex then
      ({ rf1 with votedFor := args.candidateId }, ⟨rf1.currentTerm, true⟩)
    else
      (rf1, ⟨rf1.currentTerm, false⟩)

/-! ## Start (raft/raft.go lines 619-633) -/

/-- Result of `Start`: the Go function returns `(index, term, isLeader)` and
mutates `rf`; `persisted` records whether `rf.persist()` was invoked. -/
structure StartResult where
  rf : RaftState
  index : Int
  term : Int
  isLeader : Bool
  persisted : Bool
  deriving DecidableEq

/-- Go `Start`: leader appends one entry and persists; any other role
returns `(-1, -1, false)` and changes nothing. -/
def Start (rf : RaftState) (command : Int) : StartResult :=
  if rf.state = STATE_LEADER then
    let term := rf.currentTerm
    let index := rf.getLastLogIndex + 1
    ⟨{ rf with log := rf.log ++ [⟨index, term, command⟩] }, index, term, true, true⟩
  else
    ⟨rf, -1, -1, false, false⟩

/-! ## AppendEntries (raft/raft.go lines 335-408) -/

structure AppendEntriesArgs where
  term : Int
  leaderId : Int
  prevLogIndex : Int
  prevLogTerm : Int
  entries : List LogEntry
  leaderCommit : Int
  deriving DecidableEq

structure AppendEntriesReply where
  term : Int
  success : Bool
  nextTryIndex : Int
  deriving DecidableEq

/-- The backward conflict scan of the Go `AppendEntries` handler:
`for i := args.PrevLogIndex - 1; i >= baseIndex; i--` looking for the first
`i` (from above) whose term differs from the conflicting term `t`, replying
`i + 1`.  The fuel argument counts the remaining iterations, so position
`k` of the log corresponds to loop variable `i = baseIndex + k`; when the
loop runs out without a break, `reply.NextTryIndex` keeps the zero value 0
it had when the reply struct was allocated. -/
def scanBack (log : List LogEntry) (base t : Int) : Nat → Int
  | 0 => 0
  | k + 1 =>
    if (nthEntry log k).term ≠ t then base + k + 1
    else scanBack log base t k

/-- Go `AppendEntries` handler.  The `chanHeartbeat` send and the deferred
`persist()` are effects; the spawned `go rf.applyLog()` is a separate step
(`applyLog` below). -/
def AppendEntries (rf : RaftState) (args : AppendEntriesArgs) :
    RaftState × AppendEntriesReply :=
  if args.term < rf.currentTerm then
    (rf, ⟨rf.currentTerm, false, rf.getLastLogIndex + 1⟩)
  else
    let rf1 := stepDown rf args.term
    if args.prevLogIndex > rf1.getLastLogIndex then
      (rf1, ⟨rf1.currentTerm, false, rf1.getLastLogIndex + 1⟩)
    else
      let baseIndex := rf1.baseIndex
      if args.prevLogIndex ≥ baseIndex ∧ args.prevLogTerm ≠ (rf1.entryAt args.prevLogIndex).term then
        let t := (rf1.entryAt args.prevLogIndex).term
        (rf1, ⟨rf1.currentTerm, false,
               scanBack rf1.log baseIndex t (args.prevLogIndex - baseIndex).toNat⟩)
      else if args.prevLogIndex ≥ baseIndex - 1 then
        let rf2 := { rf1 with
          log := rf1.log.take (args.prevLogIndex - baseIndex + 1).toNat ++ args.entries }
        let rf3 :=
          if rf2.commitIndex < args.leaderCommit then
            { rf2 with commitIndex := min args.leaderCommit rf2.getLastLogIndex }
          else rf2
        (rf3, ⟨rf3.currentTerm, true, args.prevLogIndex + args.entries.length⟩)
      else
        (rf1, ⟨rf1.currentTerm, false, 0⟩)

/-- A message on the Go `applyCh` channel. -/
structure ApplyMsg where
  commandValid : Bool
  commandIndex : Int
  command : Int
  useSnapshot : Bool
  snapshot : List Int
  deriving DecidableEq

/-- The messages Go `applyLog` emits for indices
`[lastApplied + 1, commitIndex]`; fuel is the length of that range. -/
def applyMsgs (rf : RaftState) : Nat → Int → List ApplyMsg
  | 0, _ => []
  | k + 1, i =>
    ⟨true, i, (rf.entryAt i).command, false, []⟩ :: applyMsgs rf k (i + 1)

/-- Go `applyLog`: emit every committed-but-unapplied entry on the apply
channel in index order, then set `lastApplied = commitIndex`. -/
def applyLog (rf : RaftState) : RaftState × List ApplyMsg :=
  ({ rf with lastApplied := rf.commitIndex },
   applyMsgs rf (rf.commitIndex - rf.lastApplied).toNat (rf.lastApplied + 1))

/-! ## InstallSnapshot and trimLog (raft/raft.go lines 477-539) -/

structure InstallSnapshotArgs where
  term : Int
  leaderId : Int
  lastIncludedIndex : Int
  lastIncludedTerm : Int
  data : List Int
  deriving DecidableEq

structure InstallSnapshotReply where
  term : Int
  deriving DecidableEq

/-- The backward scan of Go `trimLog`:
`for i := len(rf.log) - 1; i >= 0; i--` looking for the entry matching both
the snapshot index and term; on a hit the entries after it survive, and
without a hit nothing is appended after the placeholder. -/
def trimScan (log : List LogEntry) (lastIncludedIndex lastIncludedTerm : Int) :
    Nat → List LogEntry
  | 0 => []
  | k + 1 =>
    let e := nthEntry log k
    if e.index = lastIncludedIndex ∧ e.term = lastIncludedTerm then log.drop (k + 1)
    else trimScan log lastIncludedIndex lastIncludedTerm k

/-- Go `trimLog`: discard old entries up to `lastIncludedIndex`, keeping a
one-entry placeholder followed by the surviving suffix. -/
def trimLog (log : List LogEntry) (lastIncludedIndex lastIncludedTerm : Int) :
    List LogEntry :=
  ⟨lastIncludedIndex, lastIncludedTerm, 0⟩ ::
    trimScan log lastIncludedIndex lastIncludedTerm log.length

/-- Go `InstallSnapshot` handler.  The third component records whether
`persister.SaveStateAndSnapshot` (the atomic combined persist) was invoked;
the snapshot apply message sent to the KV layer is an effect of that same
branch. -/
def InstallSnapshot (rf : RaftState) (args : InstallSnapshotArgs) :
    RaftState × InstallSnapshotReply × Bool :=
  if args.term < rf.currentTerm then
    (rf, ⟨rf.currentTerm⟩, false)
  else
    let rf1 := stepDown rf args.term
    if args.lastIncludedIndex > rf1.commitIndex then
      let rf2 := { rf1 with
        log := trimLog rf1.log args.lastIncludedIndex args.lastIncludedTerm,
        lastApplied := args.lastIncludedIndex,
        commitIndex := args.lastIncludedIndex }
      (rf2, ⟨rf2.currentTerm⟩, true)
    else
      (rf1, ⟨rf1.currentTerm⟩, false)

/-! ## Leader-side AppendEntries reply processing (raft/raft.go lines 430-475) -/

/-- The majority count of the commit phase: `count := 1` for the leader
itself plus every other peer whose `matchIndex` is at least `N`. -/
def countMatch (rf : RaftState) (N : Int) : Nat :=
  1 + ((List.range rf.numPeers).filter
        (fun i => i ≠ rf.me ∧ ((rf.matchIndex.get? i).getD 0) ≥ N)).length

/-- The commit phase loop
`for N := rf.getLastLogIndex(); N > rf.commitIndex && rf.log[N-baseIndex].Term == rf.currentTerm; N--`:
fuel `k` encodes the loop variable as `N = rf.commitIndex + k`, so the scan
starts at `N = getLastLogIndex` and walks down to `commitIndex + 1`,
stopping early at the first entry whose term is not the current term, and
returning the first `N` replicated on a strict majority. -/
def commitScan (rf : RaftState) : Nat → Option Int
  | 0 => none
  | k + 1 =>
    let N := rf.commitIndex + (k + 1)
    if (rf.entryAt N).term = rf.currentTerm then
      if countMatch rf N > rf.numPeers / 2 then some N
      else commitScan rf k
    else none

/-- The `nextIndex`/`matchIndex` bookkeeping of Go `sendAppendEntries` on a
success or failure reply. -/
def updateIndices (rf : RaftState) (server : Nat)
    (args : AppendEntriesArgs) (reply : AppendEntriesReply) : RaftState :=
  if reply.success then
    if args.entries.length > 0 then
      let ni := (args.entries.getLast?.getD entryDefault).index + 1
      { rf with nextIndex := rf.nextIndex.set server ni,
                matchIndex := rf.matchIndex.set server (ni - 1) }
    else rf
  else
    { rf with nextIndex :=
        rf.nextIndex.set server (min reply.nextTryIndex rf.getLastLogIndex) }

/-- The body of Go `sendAppendEntries` after `Call` returned `ok = true`:
validity checks, possible step-down, `nextIndex`/`matchIndex` bookkeeping
and the leader commit phase.  The spawned `go rf.applyLog()` is a separate
step. -/
def sendAppendEntriesReply (rf : RaftState) (server : Nat)
    (args : AppendEntriesArgs) (reply : AppendEntriesReply) : RaftState :=
  if rf.state ≠ STATE_LEADER ∨ args.term ≠ rf.currentTerm then
    rf
  else if reply.term > rf.currentTerm then
    { rf with currentTerm := reply.term, state := STATE_FOLLOWER, votedFor := -1 }
  else
    let rf1 := updateIndices rf server args reply
    match commitScan rf1 ((rf1.getLastLogIndex - rf1.commitIndex).toNat) with
    | some N => { rf1 with commitIndex := N }
    | none => rf1

/-! ## KV server data model (kvraft server, kvraft/common.go) -/

/-- Go `Err` string type. -/
abbrev Err := String

/-- Go constant `OK`. -/
def OK : Err := "OK"

/-- Go constant `ErrNoKey`. -/
def ErrNoKey : Err := "ErrNoKey"

/-- Go `Op` struct: an operation in the key-value store. -/
structure Op where
  command : String
  clientId : Int
  requestId : Int
  key : String
  value : String
  deriving DecidableEq

/-- Go `Result` struct: the result of applying an operation. -/
structure Result where
  command : String
  ok : Bool
  clientId : Int
  requestId : Int
  wrongLeader : Bool
  err : Err
  value : String
  deriving DecidableEq

/-- Zero value `Result{}` of the Go struct. -/
def resultDefault : Result := ⟨"", false, 0, 0, false, "", ""⟩

/-- Lookup in a Go map modelled as an association list. -/
def assocGet {κ ν : Type} [DecidableEq κ] : List (κ × ν) → κ → Option ν
  | [], _ => none
  | (k1, v1) :: rest, k => if k1 = k then some v1 else assocGet rest k

/-- Assignment `m[k] = v` on a Go map modelled as an association list:
replace the binding if present, otherwise add it. -/
def assocSet {κ ν : Type} [DecidableEq κ] : List (κ × ν) → κ → ν → List (κ × ν)
  | [], k, v => [(k, v)]
  | (k1, v1) :: rest, k, v =>
    if k1 = k then (k, v) :: rest else (k1, v1) :: assocSet rest k v

/-- The mutable fields of the Go `KVServer` the claims are about: the
key-value `data` map and the per-client `ack` dedup map. -/
structure KVState where
  data : List (String × String)
  ack : List (Int × Int)
  deriving DecidableEq

/-- Go `isDuplicated`: the request id is at most the client's last recorded
request id. -/
def isDuplicated (kv : KVState) (op : Op) : Bool :=
  match assocGet kv.ack op.clientId with
  | some lastRequestId => lastRequestId ≥ op.requestId
  | none => false

/-- The `switch op.Command` body of Go `applyOp`: database mutation and
result construction, before the final `ack` write. -/
def applyOpSwitch (kv : KVState) (op : Op) : KVState × Result :=
  let result0 : Result :=
    { command := op.command, ok := true, clientId := op.clientId,
      requestId := op.requestId, wrongLeader := false, err := "", value := "" }
  if op.command = "put" then
    ((if isDuplicated kv op then kv
      else { kv with data := assocSet kv.data op.key op.value }),
     { result0 with err := OK })
  else if op.command = "append" then
    ((if isDuplicated kv op then kv
      else { kv with data :=
               assocSet kv.data op.key (((assocGet kv.data op.key).getD "") ++ op.value) }),
     { result0 with err := OK })
  else if op.command = "get" then
    match assocGet kv.data op.key with
    | some value => (kv, { result0 with err := OK, value := value })
    | none => (kv, { result0 with err := ErrNoKey })
  else
    (kv, result0)

/-- Go `applyOp`: apply an operation to the database and build its result.
Note the final statement of the source, `kv.ack[op.ClientId] = op.RequestId`,
an unconditional overwrite. -/
def applyOp (kv : KVState) (op : Op) : KVState × Result :=
  let step := applyOpSwitch kv op
  ({ step.1 with ack := assocSet step.1.ack op.clientId op.requestId }, step.2)

/-! ## KV RPC surface (kvraft/common.go and the kvraft server handlers) -/

structure GetArgs where
  key : String
  clientId : Int
  requestId : Int
  deriving DecidableEq

structure GetReply where
  wrongLeader : Bool
  err : Err
  value : String
  deriving DecidableEq

structure PutAppendArgs where
  key : String
  value : String
  command : String
  clientId : Int
  requestId : Int
  deriving DecidableEq

structure PutAppendReply where
  wrongLeader : Bool
  err : Err
  deriving DecidableEq

/-- Go `isMatch`: the result corresponds to the submitted log entry. -/
def isMatch (entry : Op) (result : Result) : Bool :=
  entry.clientId == result.clientId && entry.requestId == result.requestId

/-- Go `appendEntryToLog`.  The Raft submission and the channel wait are
surfaced as two parameters: `isLeader` is what `kv.rf.Start` reported, and
`delivered` is `some r` when the apply loop delivered `r` on the
log-index's result channel before the 240 ms deadline and `none` when the
`time.After(240 * time.Millisecond)` arm of the select fired first. -/
def appendEntryToLog (entry : Op) (isLeader : Bool)
    (delivered : Option Result) : Result :=
  if !isLeader then { resultDefault with ok := false }
  else
    match delivered with
    | some result =>
        if isMatch entry result then result else { resultDefault with ok := false }
    | none => { resultDefault with ok := false }

/-- The `Op` the Go `Get` handler builds from its arguments. -/
def mkGetOp (args : GetArgs) : Op :=
  { command := "get", clientId := args.clientId, requestId := args.requestId,
    key := args.key, value := "" }

/-- Go `KVServer.Get`. -/
def GetHandler (args : GetArgs) (isLeader : Bool)
    (delivered : Option Result) : GetReply :=
  let result := appendEntryToLog (mkGetOp args) isLeader delivered
  if !result.ok then { wrongLeader := true, err := "", value := "" }
  else { wrongLeader := false, err := result.err, value := result.value }

/-- The `Op` the Go `PutAppend` handler builds from its arguments. -/
def mkPutAppendOp (args : PutAppendArgs) : Op :=
  { command := args.command, clientId := args.clientId, requestId := args.requestId,
    key := args.key, value := args.value }

/-- Go `KVServer.PutAppend`. -/
def PutAppendHandler (args : PutAppendArgs) (isLeader : Bool)
    (delivered : Option Result) : PutAppendReply :=
  let result := appendEntryToLog (mkPutAppendOp args) isLeader delivered
  if !result.ok then { wrongLeader := true, err := "" }
  else { wrongLeader := false, err := result.err }

/-! ## Linearizability checker (linearizability package)

The Go checker is generic over `interface{}` inputs, outputs and model
states; the embedding is generic over types `α` (operation input), `β`
(operation output) and `σ` (model state).  Node values carry
`Sum α β` — `Sum.inl` for call entries, `Sum.inr` for return entries — in
place of Go's untyped `interface{}` with type assertions.  The doubly
linked list of nodes lives in an arena (`Array`), with `Option Nat`
prev/next/match pointers in place of Go's `*node`; a pointer dereference
that Go would crash on surfaces as an `Option` failure of the runner.  The
imperative main loop of `checkSingle` becomes a fuel-indexed recursion
returning `none` when the fuel runs out (the loop terminates in Go, but the
claims only need concrete runs). -/

/-- Go `Operation` struct of `model.go`; `ret` is the source's `Return`
field (response time). -/
structure Operation (α β : Type) where
  input : α
  call : Int
  output : β
  ret : Int
  deriving DecidableEq

/-- Go `Model` struct of `model.go`, restricted to the operation-history
path exercised by `CheckOperations` (`PartitionEvent` serves only
`CheckEvents`).  `init` is the value Go's `Init` closure returns. -/
structure Model (α β σ : Type) where
  partition : List (Operation α β) → List (List (Operation α β))
  init : σ
  step : σ → α → β → Bool × σ
  equal : σ → σ → Bool

/-- Go `entry` struct of the checker: call/return flag (`true` = return),
value, operation id and timestamp. -/
structure Entry (α β : Type) where
  kind : Bool
  value : Sum α β
  id : Nat
  time : Int
  deriving DecidableEq

/-- Insertion into a list sorted by ascending `time`. -/
def insertByTime {α β : Type} (e : Entry α β) : List (Entry α β) → List (Entry α β)
  | [] => [e]
  | x :: xs => if e.time < x.time then e :: x :: xs else x :: insertByTime e xs

/-- Insertion sort by ascending `time`, standing in for Go's
`sort.Sort(byTime(entries))`; `sort.Sort` is unstable, but on histories
with pairwise distinct timestamps (such as the claims' inputs) every
comparison sort agrees. -/
def sortByTime {α β : Type} : List (Entry α β) → List (Entry α β)
  | [] => []
  | x :: xs => insertByTime x (sortByTime xs)

/-- Go `makeEntries`: two time-sorted entries per operation sharing the
operation's position as id. -/
def makeEntries {α β : Type} (history : List (Operation α β)) : List (Entry α β) :=
  sortByTime (history.enum.flatMap (fun p =>
    [⟨false, Sum.inl p.2.input, p.1, p.2.call⟩,
     ⟨true, Sum.inr p.2.output, p.1, p.2.ret⟩]))

/-- Go `node` struct: arena index form of the doubly linked list node, with
`matchIdx` pointing from a call node to its return node (`none` on return
nodes and on the head sentinel, whose `value` is also `none`). -/
structure LNode (α β : Type) where
  value : Option (Sum α β)
  matchIdx : Option Nat
  id : Nat
  next : Option Nat
  prev : Option Nat
  deriving DecidableEq

/-- Position of the return entry with the given id.  In Go's
`makeLinkedEntries` the backward construction records each return node in
the `match` map before its call is processed; since each id has exactly one
return entry, that node is the one found here. -/
def findRetIdx {α β : Type} (entries : List (Entry α β)) (id : Nat) : Option Nat :=
  entries.findIdx? (fun e => e.kind && e.id == id)

/-- Go `makeLinkedEntries`: the arena holds the node of entry `i` at index
`i`, linked in entry order (the Go loop inserts each node at the front
walking the entries backward, producing exactly this linking); the head
sentinel that Go's `checkSingle` prepends is added by `checkSingle`
below. -/
def makeLinkedEntries {α β : Type} (entries : List (Entry α β)) : Array (LNode α β) :=
  (entries.enum.map (fun p =>
    ({ value := some p.2.value,
       matchIdx := if p.2.kind then none else findRetIdx entries p.2.id,
       id := p.2.id,
       next := if p.1 + 1 < entries.length then some (p.1 + 1) else none,
       prev := if p.1 = 0 then none else some (p.1 - 1) } : LNode α β))).toArray

/-- In-place update of one arena node. -/
def updNode {α β : Type} (nodes : Array (LNode α β)) (i : Nat)
    (f : LNode α β → LNode α β) : Array (LNode α β) :=
  match nodes[i]? with
  | some nd => nodes.setD i (f nd)
  | none => nodes

/-- Go `lift`: unlink a call node and its matching return node from the
list (`entry.prev.next = entry.next; entry.next.prev = entry.prev`, then
the same for the match, whose `next` may be nil). -/
def lift {α β : Type} (nodes : Array (LNode α β)) (e : Nat) :
    Option (Array (LNode α β)) := do
  let en ← nodes[e]?
  let pIdx ← en.prev
  let nIdx ← en.next
  let nodes1 := updNode nodes pIdx (fun x => { x with next := en.next })
  let nodes2 := updNode nodes1 nIdx (fun x => { x with prev := en.prev })
  let mIdx ← en.matchIdx
  let mn ← nodes2[mIdx]?
  let mpIdx ← mn.prev
  let nodes3 := updNode nodes2 mpIdx (fun x => { x with next := mn.next })
  match mn.next with
  | some mnIdx => pure (updNode nodes3 mnIdx (fun x => { x with prev := mn.prev }))
  | none => pure nodes3

/-- Go `unlift`: re-insert a call node and its match, relying on the stale
pointers the lifted nodes kept (match first, then the call node). -/
def unlift {α β : Type} (nodes : Array (LNode α β)) (e : Nat) :
    Option (Array (LNode α β)) := do
  let en ← nodes[e]?
  let mIdx ← en.matchIdx
  let mn ← nodes[mIdx]?
  let mpIdx ← mn.prev
  let nodes1 := updNode nodes mpIdx (fun x => { x with next := some mIdx })
  let nodes2 :=
    match mn.next with
    | some mnIdx => updNode nodes1 mnIdx (fun x => { x with prev := some mIdx })
    | none => nodes1
  let pIdx ← en.prev
  let nIdx ← en.next
  let nodes3 := updNode nodes2 pIdx (fun x => { x with next := some e })
  pure (updNode nodes3 nIdx (fun x => { x with prev := some e }))

/-! ### Bitset (linearizability bitset source) -/

/-- Go `bitset`: 64-bit words as `Nat`s kept below `2 ^ 64` by the
operations. -/
abbrev bitset := List Nat

/-- Go `newBitset`. -/
def newBitset (bits : Nat) : bitset :=
  let extra := if bits % 64 ≠ 0 then 1 else 0
  let chunks := bits / 64 + extra
  List.replicate chunks 0

/-- Go `bitsetIndex`: word index and bit position. -/
def bitsetIndex (pos : Nat) : Nat × Nat := (pos / 64, pos % 64)

/-- Go `set`: `b[major] |= (1 << minor)`. -/
def bitsetSet (b : bitset) (pos : Nat) : bitset :=
  let p := bitsetIndex pos
  b.set p.1 (((b[p.1]?).getD 0) ||| (1 <<< p.2))

/-- Go `clear`: `b[major] &^= (1 << minor)`; the Go and-not with a one-bit
mask equals subtracting the masked bit. -/
def bitsetClear (b : bitset) (pos : Nat) : bitset :=
  let p := bitsetIndex pos
  let w := (b[p.1]?).getD 0
  b.set p.1 (w - (w &&& (1 <<< p.2)))

/-- One word of Go `popcnt`: the Hamming-weight bit tricks, with the
64-bit overflow of the final multiply made explicit. -/
def hamming64 (v : Nat) : Nat :=
  let v1 := (v &&& 0x5555555555555555) + ((v &&& 0xAAAAAAAAAAAAAAAA) >>> 1)
  let v2 := (v1 &&& 0x3333333333333333) + ((v1 &&& 0xCCCCCCCCCCCCCCCC) >>> 2)
  let v3 := (v2 &&& 0x0F0F0F0F0F0F0F0F) + ((v2 &&& 0xF0F0F0F0F0F0F0F0) >>> 4)
  let v4 := (v3 * 0x0101010101010101) % (2 ^ 64)
  (v4 >>> 56) &&& 0xFF

/-- Go `popcnt` over all words. -/
def popcnt (b : bitset) : Nat :=
  b.foldl (fun total v => total + hamming64 v) 0

/-- Go `hash`: popcount xored with every word. -/
def bitsetHash (b : bitset) : Nat :=
  b.foldl (fun h v => h ^^^ v) (popcnt b)

/-- Go `equals`: same length and pairwise equal words. -/
def bitsetEquals (b b2 : bitset) : Bool :=
  b == b2

/-! ### checkSingle (linearizability checker main loop) -/

/-- Go `cacheEntry`. -/
structure CacheEntry (σ : Type) where
  linearized : bitset
  state : σ

/-- Go `cacheContains`: scan the hash bucket for an entry with an equal
bitset and a model-equal state. -/
def cacheContains {α β σ : Type} (model : Model α β σ)
    (cache : List (Nat × List (CacheEntry σ))) (e : CacheEntry σ) : Bool :=
  ((assocGet cache (bitsetHash e.linearized)).getD []).any
    (fun elem => bitsetEquals e.linearized elem.linearized && model.equal e.state elem.state)

/-- Go `cache[hash] = append(cache[hash], entry)`. -/
def cacheAdd {σ : Type} (cache : List (Nat × List (CacheEntry σ))) (hash : Nat)
    (e : CacheEntry σ) : List (Nat × List (CacheEntry σ)) :=
  assocSet cache hash (((assocGet cache hash).getD []) ++ [e])

/-- The loop state of Go `checkSingle`: the arena, the head sentinel's
index, the current entry pointer, the linearized bitset, the cache, the
calls stack (node index paired with the pre-call state) and the model
state. -/
structure CSState (α β σ : Type) where
  nodes : Array (LNode α β)
  headIdx : Nat
  entryIdx : Option Nat
  linearized : bitset
  cache : List (Nat × List (CacheEntry σ))
  calls : List (Nat × σ)
  state : σ

/-- The `for headEntry.next != nil` loop of Go `checkSingle` as a
fuel-indexed recursion (`none` = out of fuel or a pointer error Go would
crash on).  The `kill` flag is always 0 here: partition checks are run
sequentially below and their conjunction does not depend on the
short-circuit. -/
def checkSingleLoop {α β σ : Type} (model : Model α β σ) :
    Nat → CSState α β σ → Option Bool
  | 0, _ => none
  | fuel + 1, cs =>
    match cs.nodes[cs.headIdx]? with
    | none => none
    | some hd =>
      match hd.next with
      | none => some true
      | some _ =>
        match cs.entryIdx with
        | none => none
        | some e =>
          match cs.nodes[e]? with
          | none => none
          | some en =>
            match en.matchIdx with
            | some mIdx =>
              (match cs.nodes[mIdx]?, en.value with
               | some mn, some (Sum.inl inputV) =>
                 (match mn.value with
                  | some (Sum.inr outputV) =>
                    let so := model.step cs.state inputV outputV
                    if so.1 then
                      let newLinearized := bitsetSet cs.linearized en.id
                      let newCE : CacheEntry σ := ⟨newLinearized, so.2⟩
                      if ! cacheContains model cs.cache newCE then
                        match lift cs.nodes e with
                        | none => none
                        | some nodes2 =>
                          match nodes2[cs.headIdx]? with
                          | none => none
                          | some hd2 =>
                            checkSingleLoop model fuel
                              { cs with
                                nodes := nodes2,
                                cache := cacheAdd cs.cache (bitsetHash newLinearized) newCE,
                                calls := cs.calls ++ [(e, cs.state)],
                                state := so.2,
                                linearized := bitsetSet cs.linearized en.id,
                                entryIdx := hd2.next }
                      else
                        checkSingleLoop model fuel { cs with entryIdx := en.next }
                    else
                      checkSingleLoop model fuel { cs with entryIdx := en.next }
                  | _ => none)
               | _, _ => none)
            | none =>
              match cs.calls.getLast? with
              | none => some false
              | some top =>
                match cs.nodes[top.1]? with
                | none => none
                | some topn =>
                  match unlift cs.nodes top.1 with
                  | none => none
                  | some nodes2 =>
                    match nodes2[top.1]? with
                    | none => none
                    | some topn2 =>
                      checkSingleLoop model fuel
                        { cs with
                          nodes := nodes2,
                          state := top.2,
                          linearized := bitsetClear cs.linearized topn.id,
                          calls := cs.calls.dropLast,
                          entryIdx := topn2.next }

/-- Go `checkSingle`: build the linked list, prepend the head sentinel
(`insertBefore(&node{value: nil, match: nil}, subhistory)`), allocate the
bitset over `length/2` call ids and run the loop. -/
def checkSingle {α β σ : Type} (model : Model α β σ) (fuel : Nat)
    (entries : List (Entry α β)) : Option Bool :=
  let m := entries.length
  let base := makeLinkedEntries entries
  let withHead := base.push ⟨none, none, 0, if 0 < m then some 0 else none, none⟩
  let nodes :=
    if 0 < m then updNode withHead 0 (fun x => { x with prev := some m }) else withHead
  checkSingleLoop model fuel
    { nodes := nodes, headIdx := m, entryIdx := if 0 < m then some 0 else none,
      linearized := newBitset (m / 2), cache := [], calls := [], state := model.init }

/-- Go `CheckOperations` (with `fillDefault` already satisfied by a full
model and a zero timeout): check every partition and conjoin.  The Go
version runs partitions in parallel workers and short-circuits via the
`kill` flag on the first failure; the aggregate `ok = ok && result` is the
same conjunction. -/
def CheckOperationsFuel {α β σ : Type} (fuel : Nat) (model : Model α β σ)
    (history : List (Operation α β)) : Option Bool :=
  ((model.partition history).mapM (fun sub => checkSingle model fuel (makeEntries sub))).map
    (fun rs => rs.all id)

/-! ### KvModel (linearizability/models.go) -/

/-- Go `KvInput`: `op` is 0 for get, 1 for put, 2 for append. -/
structure KvInput where
  op : Nat
  key : String
  value : String
  deriving DecidableEq

/-- Go `KvOutput`. -/
structure KvOutput where
  value : String
  deriving DecidableEq

/-- The `Partition` closure of Go `KvModel`: group operations by key,
keeping history order within each group.  The Go code collects the groups
from a map in unspecified iteration order; the groups are emitted here in
order of first key occurrence, which has the same contents and the same
conjunction. -/
def kvPartition (history : List (Operation KvInput KvOutput)) :
    List (List (Operation KvInput KvOutput)) :=
  let keys := history.foldl
    (fun acc v => if acc.contains v.input.key then acc else acc ++ [v.input.key]) []
  keys.map (fun k => history.filter (fun v => v.input.key == k))

/-- Go `KvModel`: single-key string state, get checks the output against
the state, put replaces it, append concatenates; `Equal` is
`ShallowEqual`, which on strings is plain equality. -/
def KvModel : Model KvInput KvOutput String :=
  { partition := kvPartition,
    init := "",
    step := fun state inp out =>
      if inp.op = 0 then (out.value == state, state)
      else if inp.op = 1 then (true, inp.value)
      else if inp.op = 2 then (true, state ++ inp.value)
      else (false, state),
    equal := fun s1 s2 => s1 == s2 }

/-- The fabricated history of the C8 claim: a completed `Put("k","v2")`
(call time 0, return time 1) followed after its return by a `Get("k")`
returning "v1" (call time 2, return time 3). -/
def historyC8 : List (Operation KvInput KvOutput) :=
  [⟨⟨1, "k", "v2"⟩, 0, ⟨""⟩, 1⟩,
   ⟨⟨0, "k", ""⟩, 2, ⟨"v1"⟩, 3⟩]

/-! ## The spec's replica invariant (spec sections 3 and 8) -/

/-- The claimed invariant `lastApplied ≤ commitIndex ≤ lastLogIndex`. -/
abbrev Inv (rf : RaftState) : Prop :=
  rf.lastApplied ≤ rf.commitIndex ∧ rf.commitIndex ≤ rf.getLastLogIndex

/-- Well-formedness of a replica's log: non-empty (Go indexes `log[0]` and
`log[len-1]` unconditionally) with the entry at position `i` carrying log
index `baseIndex + i`, as maintained by every log mutation in the source. -/
abbrev wfLog (rf : RaftState) : Prop :=
  rf.log ≠ [] ∧
  ∀ i : Nat, i < rf.log.length → (nthEntry rf.log i).index = rf.baseIndex + i

/-- Well-formedness of an AppendEntries payload: the entries continue the
log contiguously after `prevLogIndex`, as built by `broadcastHeartbeat`. -/
abbrev wfEntries (args : AppendEntriesArgs) : Prop :=
  ∀ i : Nat, i < args.entries.length →
    (nthEntry args.entries i).index = args.prevLogIndex + 1 + i

/-- The greatest position of `log` whose entry matches both the snapshot
index and term, looking only at the first `m` positions.  This is the
specification-side description of what the backward scan of `trimLog`
finds. -/
def lastMatchPosUpTo (log : List LogEntry) (idx t : Int) (m : Nat) : Option Nat :=
  ((List.range m).filter
    (fun j => (nthEntry log j).index = idx ∧ (nthEntry log j).term = t)).getLast?

/-- The greatest position of `log` whose entry matches both the snapshot
index and term. -/
def lastMatchPos (log : List LogEntry) (idx t : Int) : Option Nat :=
  lastMatchPosUpTo log idx t log.length

/-! ## Concrete instances the claim theorems are evaluated on -/

/-- Concrete replica for the C2 counterexample: after a snapshot the base
index is 2 and every surviving entry carries term 5. -/
def rfC2 : RaftState :=
  { state := STATE_FOLLOWER, voteCount := 0, currentTerm := 1, votedFor := -1,
    log := [⟨2, 5, 0⟩, ⟨3, 5, 0⟩], commitIndex := 2, lastApplied := 2,
    nextIndex := [], matchIndex := [], me := 0, numPeers := 3 }

/-- Concrete conflicting AppendEntries request for the C2 counterexample:
`prevLogTerm = 7` disagrees with the receiver's term 5 at `prevLogIndex = 3`,
and the conflicting term extends down to the base index. -/
def argsC2 : AppendEntriesArgs := ⟨1, 0, 3, 7, [], 2⟩

/-- Concrete replica for the C6 witness. -/
def rfW6 : RaftState :=
  { state := STATE_FOLLOWER, voteCount := 0, currentTerm := 2, votedFor := -1,
    log := [⟨0, 0, 0⟩, ⟨1, 1, 0⟩, ⟨2, 1, 0⟩, ⟨3, 2, 0⟩],
    commitIndex := 1, lastApplied := 1,
    nextIndex := [], matchIndex := [], me := 0, numPeers := 3 }

/-- Concrete snapshot installation for the C6 witness: the snapshot point
(index 2, term 1) matches a log entry, so the entry at index 3 survives. -/
def argsW6 : InstallSnapshotArgs := ⟨2, 0, 2, 1, []⟩

/-- Concrete Get request for the C7 witness. -/
def argsW7 : GetArgs := ⟨"k", 5, 3⟩

/-- Concrete delivered result for the C7 witness, matching the request's
`(clientId, requestId)` pair as `applyOp` would produce it. -/
def resultW7 : Result := ⟨"get", true, 5, 3, false, OK, "v"⟩

/-- Concrete KV state for the C7 witness. -/
def kvW7 : KVState := ⟨[("k", "v")], []⟩

/-- Concrete replica for the C3 counterexample: fully applied and committed
through index 3. -/
def rfC3 : RaftState :=
  { state := STATE_FOLLOWER, voteCount := 0, currentTerm := 1, votedFor := -1,
    log := [⟨0, 0, 0⟩, ⟨1, 0, 0⟩, ⟨2, 0, 0⟩, ⟨3, 0, 0⟩],
    commitIndex := 3, lastApplied := 3,
    nextIndex := [], matchIndex := [], me := 0, numPeers := 3 }

/-- Concrete stale heartbeat for the C3 counterexample: a consistent
`prevLogIndex = 1` with no entries, as a delayed duplicate AppendEntries
would carry; the handler truncates the log to index 1 while `commitIndex`
stays 3. -/
def argsC3 : AppendEntriesArgs := ⟨1, 0, 1, 0, [], 0⟩

/-- Concrete replica for the C3 witness. -/
def rfW3 : RaftState :=
  { state := STATE_FOLLOWER, voteCount := 0, currentTerm := 1, votedFor := -1,
    log := [⟨0, 0, 0⟩, ⟨1, 1, 0⟩], commitIndex := 1, lastApplied := 0,
    nextIndex := [], matchIndex := [], me := 0, numPeers := 3 }

/-- Concrete AppendEntries for the C3 witness: appends the entry at index 2
and lets the follower commit it. -/
def argsW3 : AppendEntriesArgs := ⟨1, 0, 1, 1, [⟨2, 1, 7⟩], 2⟩

/-- Concrete leader for the C4 witness: three peers, one entry of the
current term pending at index 1. -/
def rfW4 : RaftState :=
  { state := STATE_LEADER, voteCount := 2, currentTerm := 1, votedFor := 0,
    log := [⟨0, 0, 0⟩, ⟨1, 1, 5⟩], commitIndex := 0, lastApplied := 0,
    nextIndex := [2, 1, 1], matchIndex := [0, 0, 0], me := 0, numPeers := 3 }

/-- Concrete AppendEntries the C4 witness leader had sent to peer 1. -/
def argsW4 : AppendEntriesArgs := ⟨1, 0, 0, 0, [⟨1, 1, 5⟩], 0⟩

/-- Concrete successful reply from peer 1 for the C4 witness. -/
def replyW4 : AppendEntriesReply := ⟨1, true, 0⟩

/-- Concrete replica for the C2 witness: terms 1,2,2 at indices 0,1,2. -/
def rfW2 : RaftState :=
  { state := STATE_FOLLOWER, voteCount := 0, currentTerm := 2, votedFor := -1,
    log := [⟨0, 1, 0⟩, ⟨1, 2, 0⟩, ⟨2, 2, 0⟩], commitIndex := 0, lastApplied := 0,
    nextIndex := [], matchIndex := [], me := 0, numPeers := 3 }

/-- Concrete conflicting AppendEntries request for the C2 witness: the
conflicting term 2 starts at index 1, so the reply directs the leader to
retry from index 1. -/
def argsW2 : AppendEntriesArgs := ⟨2, 0, 2, 9, [], 0⟩

/-- Concrete KV state for the C1 counterexample: client 1 already acked
request 7. -/
def kvC1 : KVState := { data := [], ack := [(1, 7)] }

/-- Concrete operation for the C1 counterexample: a get by client 1 with the
smaller request id 5. -/
def opC1 : Op := { command := "get", clientId := 1, requestId := 5, key := "x", value := "" }

/-- Concrete voter state for the C5 witness. -/
def rfW5 : RaftState :=
  { state := STATE_FOLLOWER, voteCount := 0, currentTerm := 0, votedFor := -1,
    log := [⟨0, 0, 0⟩], commitIndex := 0, lastApplied := 0,
    nextIndex := [], matchIndex := [], me := 0, numPeers := 3 }

/-- Concrete candidate request for the C5 witness. -/
def argsW5 : RequestVoteArgs := ⟨1, 2, 5, 3⟩

/-- Concrete KV state for the C9 witness. -/
def kvW9 : KVState := { data := [("a", "1")], ack := [] }

/-- Concrete get on an absent key for the C9 witness. -/
def opW9 : Op := { command := "get", clientId := 3, requestId := 1, key := "b", value := "" }

/-- Concrete non-leader replica for the C10 witness. -/
def rfW10 : RaftState :=
  { state := STATE_FOLLOWER, voteCount := 0, currentTerm := 4, votedFor := 1,
    log := [⟨0, 0, 0⟩, ⟨1, 2, 9⟩], commitIndex := 1, lastApplied := 1,
    nextIndex := [], matchIndex := [], me := 2, numPeers := 3 }

/-- Concrete leader replica for the C10 witness. -/
def rfW10b : RaftState := { rfW10 with state := STATE_LEADER }

end Sentinel

namespace Sentinel

/-! ## Frame lemmas for `stepDown` -/

@[simp]
theorem stepDown_log (rf : RaftState) (t : Int) : (stepDown rf t).log = rf.log := by
  unfold stepDown
  split <;> rfl

@[simp]
theorem stepDown_commitIndex (rf : RaftState) (t : Int) :
    (stepDown rf t).commitIndex = rf.commitIndex := by
  unfold stepDown
  split <;> rfl

@[simp]
theorem stepDown_lastApplied (rf : RaftState) (t : Int) :
    (stepDown rf t).lastApplied = rf.lastApplied := by
  unfold stepDown
  split <;> rfl

@[simp]
theorem stepDown_matchIndex (rf : RaftState) (t : Int) :
    (stepDown rf t).matchIndex = rf.matchIndex := by
  unfold stepDown
  split <;> rfl

@[simp]
theorem stepDown_nextIndex (rf : RaftState) (t : Int) :
    (stepDown rf t).nextIndex = rf.nextIndex := by
  unfold stepDown
  split <;> rfl

@[simp]
theorem stepDown_me (rf : RaftState) (t : Int) : (stepDown rf t).me = rf.me := by
  unfold stepDown
  split <;> rfl

@[simp]
theorem stepDown_numPeers (rf : RaftState) (t : Int) :
    (stepDown rf t).numPeers = rf.numPeers := by
  unfold stepDown
  split <;> rfl

@[simp]
theorem stepDown_baseIndex (rf : RaftState) (t : Int) :
    (stepDown rf t).baseIndex = rf.baseIndex := by
  unfold RaftState.baseIndex
  rw [stepDown_log]

@[simp]
theorem stepDown_getLastLogIndex (rf : RaftState) (t : Int) :
    (stepDown rf t).getLastLogIndex = rf.getLastLogIndex := by
  unfold RaftState.getLastLogIndex RaftState.lastEntry
  rw [stepDown_log]

@[simp]
theorem stepDown_getLastLogTerm (rf : RaftState) (t : Int) :
    (stepDown rf t).getLastLogTerm = rf.getLastLogTerm := by
  unfold RaftState.getLastLogTerm RaftState.lastEntry
  rw [stepDown_log]

@[simp]
theorem stepDown_entryAt (rf : RaftState) (t i : Int) :
    (stepDown rf t).entryAt i = rf.entryAt i := by
  unfold RaftState.entryAt
  rw [stepDown_log, stepDown_baseIndex]

@[simp]
theorem stepDown_isUpToDate (rf : RaftState) (t a b : Int) :
    (stepDown rf t).isUpToDate a b = rf.isUpToDate a b := by
  unfold RaftState.isUpToDate
  rw [stepDown_getLastLogIndex, stepDown_getLastLogTerm]

theorem stepDown_votedFor (rf : RaftState) (t : Int) :
    (stepDown rf t).votedFor = if t > rf.currentTerm then -1 else rf.votedFor := by
  unfold stepDown
  split <;> rfl

theorem stepDown_currentTerm (rf : RaftState) (t : Int) :
    (stepDown rf t).currentTerm = if t > rf.currentTerm then t else rf.currentTerm := by
  unfold stepDown
  split <;> rfl

/-! ## Claims C1, C5, C9, C10 -/

/-- C1 counterexample: the claim says the apply dispatcher sets
`ack[c] = max(ack[c], r)`, so applying client 1's request 5 on a state with
`ack[1] = 7` should leave `ack[1] = max 7 5 = 7`; the code instead overwrites
`ack[1]` with 5, so `ack[1]` decreases. -/
theorem C1_counterexample :
    assocGet ((applyOp kvC1 opC1).1).ack 1 = some 5 ∧ ((5 : Int) ≠ max 7 5) := by
  constructor
  · rfl
  · decide

/-- After a map assignment, lookup of the assigned key yields the assigned
value. -/
theorem assocGet_assocSet {κ ν : Type} [DecidableEq κ] (m : List (κ × ν)) (k : κ) (v : ν) :
    assocGet (assocSet m k v) k = some v := by
  induction m with
  | nil => simp [assocSet, assocGet]
  | cons hd tl ih =>
    obtain ⟨k1, v1⟩ := hd
    by_cases h : k1 = k
    · simp [assocSet, assocGet, h]
    · simp [assocSet, assocGet, h, ih]

/-- C1 amended: for every applied operation, the dispatcher sets
`ack[clientId]` to the operation's request id unconditionally (not to the
max); hence `ack[clientId]` can decrease when a duplicate with a smaller
request id is applied. -/
theorem C1_amended (kv : KVState) (op : Op) :
    assocGet ((applyOp kv op).1).ack op.clientId = some op.requestId :=
  assocGet_assocSet (applyOpSwitch kv op).1.ack op.clientId op.requestId

/-- C5: for a RequestVote request whose term is not stale, the vote is
granted iff `votedFor` (after the step-down reset on a strictly greater
term) is none (-1) or the candidate, and the candidate's log is at least as
up-to-date as ours; and a granted vote records the candidate in `votedFor`. -/
theorem C5_requestVote_grant (rf : RaftState) (args : RequestVoteArgs)
    (h : args.term ≥ rf.currentTerm) :
    (((RequestVote rf args).2.voteGranted = true) ↔
      (((if args.term > rf.currentTerm then (-1 : Int) else rf.votedFor) = -1 ∨
        (if args.term > rf.currentTerm then (-1 : Int) else rf.votedFor) = args.candidateId) ∧
       (args.lastLogTerm > rf.getLastLogTerm ∨
        (args.lastLogTerm = rf.getLastLogTerm ∧ args.lastLogIndex ≥ rf.getLastLogIndex)))) ∧
    ((RequestVote rf args).2.voteGranted = true →
      (RequestVote rf args).1.votedFor = args.candidateId) := by
  have hnlt : ¬ args.term < rf.currentTerm := not_lt.mpr h
  by_cases hgt : args.term > rf.currentTerm <;>
    constructor <;>
    simp [RequestVote, stepDown, RaftState.isUpToDate, RaftState.getLastLogTerm,
      RaftState.getLastLogIndex, RaftState.lastEntry, hnlt, hgt] <;>
    split_ifs <;>
    simp_all

/-- C5 witness: evaluating the handler on a concrete fresh voter and an
up-to-date candidate grants the vote. -/
theorem C5_witness :
    (RequestVote rfW5 argsW5).2.voteGranted = true ∧
    (RequestVote rfW5 argsW5).1.votedFor = argsW5.candidateId := by
  have h := C5_requestVote_grant rfW5 argsW5 (by decide)
  have hg : (RequestVote rfW5 argsW5).2.voteGranted = true := h.1.mpr (by decide)
  exact ⟨hg, h.2 hg⟩

/-- C9: the KV state machine replies `ErrNoKey` exactly for a get on an
absent key (and then the value is empty); put and append reply `OK`; a get
on a present key replies `OK` with the stored value. -/
theorem C9_applyOp_err (kv : KVState) (op : Op) :
    (((applyOp kv op).2.err = ErrNoKey) ↔
        (op.command = "get" ∧ assocGet kv.data op.key = none)) ∧
    (op.command = "get" → assocGet kv.data op.key = none →
        (applyOp kv op).2.value = "") ∧
    ((op.command = "put" ∨ op.command = "append") → (applyOp kv op).2.err = OK) ∧
    (op.command = "get" → ∀ v, assocGet kv.data op.key = some v →
        (applyOp kv op).2.err = OK ∧ (applyOp kv op).2.value = v) := by
  have hOK : OK ≠ ErrNoKey := by decide
  by_cases hput : op.command = "put"
  · simp [applyOp, applyOpSwitch, hput, hOK]
  · by_cases happ : op.command = "append"
    · simp [applyOp, applyOpSwitch, hput, happ, hOK]
    · by_cases hget : op.command = "get"
      · cases hdata : assocGet kv.data op.key with
        | none => simp [applyOp, applyOpSwitch, hput, happ, hget, hdata]
        | some v => simp [applyOp, applyOpSwitch, hput, happ, hget, hdata, hOK]
      · have hEmpty : ("" : Err) ≠ ErrNoKey := by decide
        simp [applyOp, applyOpSwitch, hput, happ, hget, hEmpty]

/-- C9 witness: a get on an absent key of a concrete store replies
`ErrNoKey`. -/
theorem C9_witness : (applyOp kvW9 opW9).2.err = ErrNoKey :=
  (C9_applyOp_err kvW9 opW9).1.mpr (by constructor <;> rfl)

/-- C10: `Start` on a non-leader returns `(-1, -1, false)`, does not persist
and leaves the whole replica state unchanged; on a leader it returns
`lastLogIndex + 1` and `currentTerm`, appends exactly one entry carrying
that index and term, and persists. -/
theorem C10_start (rf : RaftState) (command : Int) :
    (rf.state ≠ STATE_LEADER → Start rf command = ⟨rf, -1, -1, false, false⟩) ∧
    (rf.state = STATE_LEADER →
      Start rf command =
        ⟨{ rf with log := rf.log ++ [⟨rf.getLastLogIndex + 1, rf.currentTerm, command⟩] },
         rf.getLastLogIndex + 1, rf.currentTerm, true, true⟩) := by
  constructor
  · intro hn
    simp [Start, hn]
  · intro hl
    simp [Start, hl]

/-- C10 witness: on a concrete follower `Start` is a no-op returning
`(-1, -1, false)`; on a concrete leader it appends one entry at
`lastLogIndex + 1` with the current term. -/
theorem C10_witness :
    Start rfW10 7 = ⟨rfW10, -1, -1, false, false⟩ ∧
    Start rfW10b 7 =
      ⟨{ rfW10b with log := rfW10b.log ++ [⟨rfW10b.getLastLogIndex + 1, rfW10b.currentTerm, 7⟩] },
       rfW10b.getLastLogIndex + 1, rfW10b.currentTerm, true, true⟩ :=
  ⟨(C10_start rfW10 7).1 (by decide), (C10_start rfW10b 7).2 (by decide)⟩

/-! ## Claim C2: the AppendEntries fast-backup conflict reply -/

/-- When every scanned entry carries the conflicting term, the backward
scan never breaks and the reply keeps the zero value 0. -/
theorem scanBack_all_eq (log : List LogEntry) (base t : Int) (k : Nat)
    (h : ∀ j, j < k → (nthEntry log j).term = t) :
    scanBack log base t k = 0 := by
  induction k with
  | zero => rfl
  | succ k ih =>
    unfold scanBack
    rw [if_neg]
    · exact ih (fun j hj => h j (Nat.lt_succ_of_lt hj))
    · simp [h k (Nat.lt_succ_self k)]

/-- When position `k` is the greatest scanned position whose term differs
from the conflicting term, the backward scan breaks there and replies
`base + k + 1`. -/
theorem scanBack_conflict (log : List LogEntry) (base t : Int) (m k : Nat)
    (hk : k < m)
    (hne : (nthEntry log k).term ≠ t)
    (hab : ∀ j, k < j → j < m → (nthEntry log j).term = t) :
    scanBack log base t m = base + k + 1 := by
  induction m with
  | zero => exact absurd hk (Nat.not_lt_zero k)
  | succ m ih =>
    unfold scanBack
    by_cases hkm : k = m
    · subst hkm
      rw [if_pos hne]
    · have hklt : k < m := Nat.lt_of_le_of_ne (Nat.lt_succ_iff.mp hk) hkm
      rw [if_neg]
      · exact ih hklt (fun j hj1 hj2 => hab j hj1 (Nat.lt_succ_of_lt hj2))
      · simp [hab m hklt (Nat.lt_succ_self m)]

/-- On the conflict branch the handler replies failure with the value of the
backward scan. -/
theorem AppendEntries_conflict (rf : RaftState) (args : AppendEntriesArgs)
    (hterm : args.term ≥ rf.currentTerm)
    (hle : args.prevLogIndex ≤ rf.getLastLogIndex)
    (hge : args.prevLogIndex ≥ rf.baseIndex)
    (hconf : args.prevLogTerm ≠ (rf.entryAt args.prevLogIndex).term) :
    (AppendEntries rf args).2.success = false ∧
    (AppendEntries rf args).2.nextTryIndex =
      scanBack rf.log rf.baseIndex (rf.entryAt args.prevLogIndex).term
        (args.prevLogIndex - rf.baseIndex).toNat := by
  have hnlt : ¬ args.term < rf.currentTerm := not_lt.mpr hterm
  have hngt : ¬ args.prevLogIndex > (stepDown rf args.term).getLastLogIndex := by
    rw [stepDown_getLastLogIndex]
    exact not_lt.mpr hle
  have hcond : args.prevLogIndex ≥ (stepDown rf args.term).baseIndex ∧
      args.prevLogTerm ≠ ((stepDown rf args.term).entryAt args.prevLogIndex).term := by
    rw [stepDown_baseIndex, stepDown_entryAt]
    exact ⟨hge, hconf⟩
  unfold AppendEntries
  rw [if_neg hnlt]
  dsimp only
  rw [if_neg hngt, if_pos hcond]
  simp

/-- C2 counterexample: on a snapshotted replica with base index 2 whose
entire log (indices 2..3) carries the conflicting term 5, a conflicting
AppendEntries is answered with `nextTryIndex = 0` — the reply's zero value —
not `baseIndex = 2` as the claim states for this case. -/
theorem C2_counterexample :
    rfC2.baseIndex = 2 ∧
    (AppendEntries rfC2 argsC2).2.success = false ∧
    (AppendEntries rfC2 argsC2).2.nextTryIndex = 0 ∧
    (AppendEntries rfC2 argsC2).2.nextTryIndex ≠ rfC2.baseIndex := by
  refine ⟨rfl, rfl, rfl, by decide⟩

/-- C2 amended: on a conflict (`args.term` not stale,
`baseIndex ≤ prevLogIndex ≤ lastLogIndex`, and `log[prevLogIndex].term ≠
args.prevLogTerm`) the receiver replies failure; `nextTryIndex` is one plus
the position of the last entry below `prevLogIndex` whose term differs from
the conflicting term — i.e. the first index of the conflicting term's run —
but when every entry from `baseIndex` through `prevLogIndex` carries the
conflicting term the reply keeps its zero value 0, not `baseIndex`.
Positions are relative to the base: position `j` holds the entry with log
index `baseIndex + j`. -/
theorem C2_appendEntries_nextTry (rf : RaftState) (args : AppendEntriesArgs)
    (hterm : args.term ≥ rf.currentTerm)
    (hle : args.prevLogIndex ≤ rf.getLastLogIndex)
    (hge : args.prevLogIndex ≥ rf.baseIndex)
    (hconf : args.prevLogTerm ≠ (rf.entryAt args.prevLogIndex).term) :
    (AppendEntries rf args).2.success = false ∧
    ((∀ j : Nat, j < (args.prevLogIndex - rf.baseIndex).toNat →
        (nthEntry rf.log j).term = (rf.entryAt args.prevLogIndex).term) →
      (AppendEntries rf args).2.nextTryIndex = 0) ∧
    (∀ k : Nat, k < (args.prevLogIndex - rf.baseIndex).toNat →
      (nthEntry rf.log k).term ≠ (rf.entryAt args.prevLogIndex).term →
      (∀ j : Nat, k < j → j < (args.prevLogIndex - rf.baseIndex).toNat →
        (nthEntry rf.log j).term = (rf.entryAt args.prevLogIndex).term) →
      (AppendEntries rf args).2.nextTryIndex = rf.baseIndex + k + 1) := by
  obtain ⟨hs, hn⟩ := AppendEntries_conflict rf args hterm hle hge hconf
  refine ⟨hs, ?_, ?_⟩
  · intro hall
    rw [hn]
    exact scanBack_all_eq _ _ _ _ hall
  · intro k hk hkne hab
    rw [hn]
    exact scanBack_conflict _ _ _ _ k hk hkne hab

/-- C2 witness: on a concrete log with terms 1,2,2 and a conflict at
`prevLogIndex = 2`, the reply directs the leader to the first index of the
conflicting term, index 1. -/
theorem C2_witness :
    (AppendEntries rfW2 argsW2).2.success = false ∧
    (AppendEntries rfW2 argsW2).2.nextTryIndex = rfW2.baseIndex + 0 + 1 := by
  have h := C2_appendEntries_nextTry rfW2 argsW2 (by decide) (by decide) (by decide) (by decide)
  refine ⟨h.1, h.2.2 0 (by decide) (by decide) ?_⟩
  intro j hj1 hj2
  have hj : j = 1 := by
    simp [rfW2, argsW2, RaftState.baseIndex, nthEntry] at hj2
    omega
  subst hj
  rfl

/-! ## Claim C6: InstallSnapshot -/

/-- The backward scan of `trimLog` keeps exactly the entries after the
greatest matching position. -/
theorem trimScan_eq (log : List LogEntry) (idx t : Int) (m : Nat) :
    trimScan log idx t m =
      (match lastMatchPosUpTo log idx t m with
       | some j => log.drop (j + 1)
       | none => []) := by
  induction m with
  | zero => rfl
  | succ m ih =>
    unfold trimScan lastMatchPosUpTo
    by_cases h : (nthEntry log m).index = idx ∧ (nthEntry log m).term = t
    · rw [if_pos h, List.range_succ, List.filter_append]
      simp [h]
    · rw [if_neg h, ih]
      unfold lastMatchPosUpTo
      rw [List.range_succ, List.filter_append]
      simp [h]

/-- C6: for an InstallSnapshot whose term is not stale, when
`lastIncludedIndex > commitIndex` the receiver replaces its log with the
one-entry placeholder `(lastIncludedIndex, lastIncludedTerm)` followed by
exactly the entries after the (greatest) log entry matching both that index
and that term, sets `lastApplied` and `commitIndex` to `lastIncludedIndex`,
and invokes the single combined `SaveStateAndSnapshot` persist; when
`lastIncludedIndex ≤ commitIndex` the log, `commitIndex` and `lastApplied`
are unchanged and no combined persist happens. -/
theorem C6_installSnapshot (rf : RaftState) (args : InstallSnapshotArgs)
    (hterm : args.term ≥ rf.currentTerm) :
    (args.lastIncludedIndex > rf.commitIndex →
      (InstallSnapshot rf args).1.log =
        LogEntry.mk args.lastIncludedIndex args.lastIncludedTerm 0 ::
          (match lastMatchPos rf.log args.lastIncludedIndex args.lastIncludedTerm with
           | some j => rf.log.drop (j + 1)
           | none => []) ∧
      (InstallSnapshot rf args).1.lastApplied = args.lastIncludedIndex ∧
      (InstallSnapshot rf args).1.commitIndex = args.lastIncludedIndex ∧
      (InstallSnapshot rf args).2.2 = true) ∧
    (args.lastIncludedIndex ≤ rf.commitIndex →
      (InstallSnapshot rf args).1.log = rf.log ∧
      (InstallSnapshot rf args).1.commitIndex = rf.commitIndex ∧
      (InstallSnapshot rf args).1.lastApplied = rf.lastApplied ∧
      (InstallSnapshot rf args).2.2 = false) := by
  have hnlt : ¬ args.term < rf.currentTerm := not_lt.mpr hterm
  unfold InstallSnapshot
  rw [if_neg hnlt]
  dsimp only
  constructor
  · intro hgt
    have hc : args.lastIncludedIndex > (stepDown rf args.term).commitIndex := by
      rw [stepDown_commitIndex]
      exact hgt
    rw [if_pos hc]
    refine ⟨?_, rfl, rfl, rfl⟩
    dsimp only
    rw [stepDown_log]
    unfold trimLog lastMatchPos
    rw [trimScan_eq]
  · intro hle
    have hc : ¬ args.lastIncludedIndex > (stepDown rf args.term).commitIndex := by
      rw [stepDown_commitIndex]
      exact not_lt.mpr hle
    rw [if_neg hc]
    exact ⟨stepDown_log rf args.term, stepDown_commitIndex rf args.term,
      stepDown_lastApplied rf args.term, rfl⟩

/-- C6 witness: a concrete snapshot installation at (index 2, term 1) on a
log with indices 0..3 keeps the placeholder plus the surviving entry at
index 3, sets both apply cursors to 2, and persists atomically. -/
theorem C6_witness :
    (InstallSnapshot rfW6 argsW6).1.log = [⟨2, 1, 0⟩, ⟨3, 2, 0⟩] ∧
    (InstallSnapshot rfW6 argsW6).1.commitIndex = 2 ∧
    (InstallSnapshot rfW6 argsW6).1.lastApplied = 2 ∧
    (InstallSnapshot rfW6 argsW6).2.2 = true := by
  have h := (C6_installSnapshot rfW6 argsW6 (by decide)).1 (by decide)
  refine ⟨?_, h.2.2.1, h.2.1, h.2.2.2⟩
  rw [h.1]
  rfl

/-! ## Claim C4: the leader commit rule -/

/-- The `nextIndex`/`matchIndex` bookkeeping leaves `commitIndex`
untouched. -/
theorem updateIndices_commitIndex (rf : RaftState) (server : Nat)
    (args : AppendEntriesArgs) (reply : AppendEntriesReply) :
    (updateIndices rf server args reply).commitIndex = rf.commitIndex := by
  unfold updateIndices
  split
  · split <;> rfl
  · rfl

/-- Soundness of the commit-phase scan: a hit `N` lies in
`(commitIndex, commitIndex + fuel]`, carries the current term, is matched by
a strict majority, and every scanned index above it carries the current term
but lacks a majority. -/
theorem commitScan_sound (rf : RaftState) (k : Nat) (N : Int)
    (h : commitScan rf k = some N) :
    rf.commitIndex < N ∧ N ≤ rf.commitIndex + k ∧
    (rf.entryAt N).term = rf.currentTerm ∧
    countMatch rf N > rf.numPeers / 2 ∧
    (∀ M : Int, N < M → M ≤ rf.commitIndex + k →
      (rf.entryAt M).term = rf.currentTerm ∧ ¬ countMatch rf M > rf.numPeers / 2) := by
  induction k with
  | zero => simp [commitScan] at h
  | succ k ih =>
    unfold commitScan at h
    dsimp only at h
    by_cases ht : (rf.entryAt (rf.commitIndex + ((k : Int) + 1))).term = rf.currentTerm
    · rw [if_pos ht] at h
      by_cases hc : countMatch rf (rf.commitIndex + ((k : Int) + 1)) > rf.numPeers / 2
      · rw [if_pos hc] at h
        injection h with h
        subst h
        refine ⟨by omega, by omega, ht, hc, ?_⟩
        intro M h1 h2
        omega
      · rw [if_neg hc] at h
        obtain ⟨a1, a2, a3, a4, a5⟩ := ih h
        refine ⟨a1, by omega, a3, a4, ?_⟩
        intro M h1 h2
        by_cases hM : M = rf.commitIndex + ((k : Int) + 1)
        · subst hM
          exact ⟨ht, hc⟩
        · exact a5 M h1 (by omega)
    · rw [if_neg ht] at h
      simp at h

/-- C4: whenever processing an AppendEntries reply changes `commitIndex`, the
new value `N` satisfies the commit rule: `N > commitIndex`, the entry at `N`
carries the leader's current term, a strict majority (the leader plus peers
with `matchIndex ≥ N`) holds it, and `N` is the greatest such index — every
`M` in `(N, lastLogIndex]` also carries the current term but lacks a
majority.  In particular `commitIndex` never advances to an index whose
entry's term differs from `currentTerm`. -/
theorem C4_leader_commit (rf : RaftState) (server : Nat)
    (args : AppendEntriesArgs) (reply : AppendEntriesReply)
    (hchg : (sendAppendEntriesReply rf server args reply).commitIndex ≠ rf.commitIndex) :
    ∃ N : Int,
      (sendAppendEntriesReply rf server args reply).commitIndex = N ∧
      rf.commitIndex < N ∧
      N ≤ (sendAppendEntriesReply rf server args reply).getLastLogIndex ∧
      ((sendAppendEntriesReply rf server args reply).entryAt N).term =
        (sendAppendEntriesReply rf server args reply).currentTerm ∧
      countMatch (sendAppendEntriesReply rf server args reply) N >
        (sendAppendEntriesReply rf server args reply).numPeers / 2 ∧
      (∀ M : Int, N < M →
        M ≤ (sendAppendEntriesReply rf server args reply).getLastLogIndex →
        ((sendAppendEntriesReply rf server args reply).entryAt M).term =
          (sendAppendEntriesReply rf server args reply).currentTerm ∧
        ¬ countMatch (sendAppendEntriesReply rf server args reply) M >
          (sendAppendEntriesReply rf server args reply).numPeers / 2) := by
  by_cases h1 : rf.state ≠ STATE_LEADER ∨ args.term ≠ rf.currentTerm
  · exact absurd (by simp [sendAppendEntriesReply, h1]) hchg
  · by_cases h2 : reply.term > rf.currentTerm
    · simp [sendAppendEntriesReply, h1, h2] at hchg
    · have hres : sendAppendEntriesReply rf server args reply =
          (match commitScan (updateIndices rf server args reply)
              (((updateIndices rf server args reply).getLastLogIndex -
                (updateIndices rf server args reply).commitIndex).toNat) with
           | some N => { updateIndices rf server args reply with commitIndex := N }
           | none => updateIndices rf server args reply) := by
        simp [sendAppendEntriesReply, h1, h2]
      cases hscan : commitScan (updateIndices rf server args reply)
          (((updateIndices rf server args reply).getLastLogIndex -
            (updateIndices rf server args reply).commitIndex).toNat) with
      | none =>
        rw [hres] at hchg
        simp only [hscan] at hchg
        exact absurd (updateIndices_commitIndex rf server args reply) hchg
      | some N =>
        obtain ⟨a1, a2, a3, a4, a5⟩ :=
          commitScan_sound (updateIndices rf server args reply) _ N hscan
        have hci : (updateIndices rf server args reply).commitIndex = rf.commitIndex :=
          updateIndices_commitIndex rf server args reply
        rw [hres]
        simp only [hscan]
        refine ⟨N, rfl, ?_, ?_, a3, a4, ?_⟩
        · rw [← hci]
          exact a1
        · show N ≤ (updateIndices rf server args reply).getLastLogIndex
          omega
        · intro M hM1 hM2
          have hM2b : M ≤ (updateIndices rf server args reply).getLastLogIndex := hM2
          exact a5 M hM1 (by omega)

/-- C4 witness: a concrete three-peer leader receiving a successful
replication reply for the entry at index 1 advances `commitIndex` to an
index whose entry carries the current term. -/
theorem C4_witness :
    rfW4.commitIndex < (sendAppendEntriesReply rfW4 1 argsW4 replyW4).commitIndex ∧
    ((sendAppendEntriesReply rfW4 1 argsW4 replyW4).entryAt
        ((sendAppendEntriesReply rfW4 1 argsW4 replyW4).commitIndex)).term =
      (sendAppendEntriesReply rfW4 1 argsW4 replyW4).currentTerm := by
  obtain ⟨N, h1, h2, h3, h4, h5, h6⟩ := C4_leader_commit rfW4 1 argsW4 replyW4 (by decide)
  constructor
  · rw [h1]
    exact h2
  · rw [h1]
    exact h4

/-! ## Claim C3: the `lastApplied ≤ commitIndex ≤ lastLogIndex` invariant -/

/-- A well-formed log determines the last log index from its length. -/
theorem wf_getLastLogIndex (rf : RaftState) (h : wfLog rf) :
    rf.getLastLogIndex = rf.baseIndex + ((rf.log.length - 1 : Nat) : Int) := by
  obtain ⟨hne, hidx⟩ := h
  have hlen : 0 < rf.log.length := List.length_pos.mpr hne
  have h1 : rf.getLastLogIndex = (nthEntry rf.log (rf.log.length - 1)).index := by
    unfold RaftState.getLastLogIndex RaftState.lastEntry nthEntry
    rw [List.getLast?_eq_getElem?]
  rw [h1, hidx (rf.log.length - 1) (by omega)]

/-- A hit of the `trimLog` match scan is an in-range position matching both
the snapshot index and term. -/
theorem lastMatchPos_spec (log : List LogEntry) (idx t : Int) (j : Nat)
    (h : lastMatchPos log idx t = some j) :
    j < log.length ∧ (nthEntry log j).index = idx ∧ (nthEntry log j).term = t := by
  unfold lastMatchPos lastMatchPosUpTo at h
  obtain ⟨ys, hys⟩ := List.getLast?_eq_some_iff.mp h
  have hmem : j ∈ (List.range log.length).filter
      (fun j => decide ((nthEntry log j).index = idx ∧ (nthEntry log j).term = t)) := by
    rw [hys]
    simp
  rw [List.mem_filter] at hmem
  obtain ⟨h1, h2⟩ := hmem
  rw [List.mem_range] at h1
  simp at h2
  exact ⟨h1, h2.1, h2.2⟩

/-- On a log whose positions carry consecutive indices, the last entry of a
trimmed log has index at least the snapshot index. -/
theorem trimLog_last_index_ge (log : List LogEntry) (idx t : Int)
    (hidx : ∀ i : Nat, i < log.length →
      (nthEntry log i).index = (nthEntry log 0).index + i) :
    idx ≤ ((trimLog log idx t).getLast?.getD entryDefault).index := by
  unfold trimLog
  have hmU : lastMatchPosUpTo log idx t log.length = lastMatchPos log idx t := rfl
  rw [trimScan_eq, hmU]
  cases hm : lastMatchPos log idx t with
  | none =>
    simp
  | some j =>
    obtain ⟨hjl, hjidx, hjt⟩ := lastMatchPos_spec log idx t j hm
    dsimp only
    by_cases hd : log.drop (j + 1) = []
    · rw [hd]
      simp
    · have hcons : (⟨idx, t, 0⟩ : LogEntry) :: log.drop (j + 1) =
          [⟨idx, t, 0⟩] ++ log.drop (j + 1) := by
        rw [List.singleton_append]
      rw [hcons, List.getLast?_append_of_ne_nil _ hd]
      have hdl : (log.drop (j + 1)).length = log.length - (j + 1) := List.length_drop _ _
      have hjlt : j + 1 < log.length := by
        by_contra hc
        have h0len : (log.drop (j + 1)).length = 0 := by omega
        exact hd (List.length_eq_zero.mp h0len)
      have hlast : (log.drop (j + 1)).getLast? = log[log.length - 1]? := by
        rw [List.getLast?_eq_getElem?, List.getElem?_drop]
        congr 1
        omega
      rw [hlast]
      have h0 : ((log[log.length - 1]?).getD entryDefault).index =
          (nthEntry log 0).index + ((log.length - 1 : Nat) : Int) := by
        have hh := hidx (log.length - 1) (by omega)
        unfold nthEntry at hh
        exact hh
      have hjq := hidx j hjl
      omega

/-- The last index of the truncate-and-append log of the AppendEntries
success branch is `prevLogIndex + len(entries)`. -/
theorem newLog_last_index (rf : RaftState) (args : AppendEntriesArgs)
    (hwf : wfLog rf) (hwfe : wfEntries args)
    (hor : args.entries = [] → rf.baseIndex ≤ args.prevLogIndex)
    (hle : args.prevLogIndex ≤ rf.getLastLogIndex) :
    ((rf.log.take (args.prevLogIndex - rf.baseIndex + 1).toNat ++ args.entries).getLast?.getD
        entryDefault).index = args.prevLogIndex + args.entries.length := by
  by_cases he : args.entries = []
  · have hge := hor he
    rw [he, List.append_nil]
    obtain ⟨hne, hidx⟩ := hwf
    have hlen : 0 < rf.log.length := List.length_pos.mpr hne
    have hgl := wf_getLastLogIndex rf ⟨hne, hidx⟩
    set c := (args.prevLogIndex - rf.baseIndex + 1).toNat with hc
    have hc2 : (c : Int) = args.prevLogIndex - rf.baseIndex + 1 := by omega
    have hcle : c ≤ rf.log.length := by omega
    rw [List.getLast?_eq_getElem?, List.length_take, List.getElem?_take]
    rw [if_pos (by omega : c ⊓ rf.log.length - 1 < c)]
    have hmin : c ⊓ rf.log.length = c := by omega
    rw [hmin]
    have hh := hidx (c - 1) (by omega)
    unfold nthEntry at hh
    simp only [List.length_nil]
    omega
  · rw [List.getLast?_append_of_ne_nil _ he]
    have helen : 0 < args.entries.length := List.length_pos.mpr he
    rw [List.getLast?_eq_getElem?]
    have hh := hwfe (args.entries.length - 1) (by omega)
    unfold nthEntry at hh
    omega

/-- The invariant only mentions `log`, `commitIndex` and `lastApplied`, so
it transfers along agreement on those fields. -/
theorem Inv_of_fields {a b : RaftState} (hlog : a.log = b.log)
    (hc : a.commitIndex = b.commitIndex) (hla : a.lastApplied = b.lastApplied)
    (h : Inv b) : Inv a := by
  unfold Inv RaftState.getLastLogIndex RaftState.lastEntry at *
  rw [hlog, hc, hla]
  exact h

/-- RequestVote touches none of the invariant's fields. -/
theorem RequestVote_preserves_Inv (rf : RaftState) (args : RequestVoteArgs)
    (h : Inv rf) : Inv (RequestVote rf args).1 := by
  unfold RequestVote
  split
  · exact h
  · dsimp only
    split
    · exact Inv_of_fields (by simp) (by simp) (by simp) h
    · exact Inv_of_fields (by simp) (by simp) (by simp) h

/-- The apply loop raises `lastApplied` exactly to `commitIndex`. -/
theorem applyLog_preserves_Inv (rf : RaftState) (h : Inv rf) :
    Inv (applyLog rf).1 := by
  unfold applyLog
  dsimp only
  have hgl : ({ rf with lastApplied := rf.commitIndex } : RaftState).getLastLogIndex =
      rf.getLastLogIndex := rfl
  exact ⟨le_refl _, hgl ▸ h.2⟩

/-- InstallSnapshot either leaves the invariant fields alone or sets
`lastApplied = commitIndex = lastIncludedIndex` with a trimmed log whose
last index is at least `lastIncludedIndex`. -/
theorem InstallSnapshot_preserves_Inv (rf : RaftState) (args : InstallSnapshotArgs)
    (hInv : Inv rf) (hwf : wfLog rf) : Inv (InstallSnapshot rf args).1 := by
  unfold InstallSnapshot
  split
  · exact hInv
  · dsimp only
    split
    · unfold Inv
      dsimp only
      refine ⟨le_refl _, ?_⟩
      show args.lastIncludedIndex ≤
        (RaftState.mk _ _ _ _
          (trimLog (stepDown rf args.term).log args.lastIncludedIndex args.lastIncludedTerm)
          _ _ _ _ _ _).getLastLogIndex
      unfold RaftState.getLastLogIndex RaftState.lastEntry
      dsimp only
      rw [stepDown_log]
      exact trimLog_last_index_ge rf.log args.lastIncludedIndex args.lastIncludedTerm hwf.2
    · exact Inv_of_fields (stepDown_log _ _) (stepDown_commitIndex _ _)
        (stepDown_lastApplied _ _) hInv

/-- The bookkeeping branches leave the log untouched. -/
theorem updateIndices_log (rf : RaftState) (server : Nat)
    (args : AppendEntriesArgs) (reply : AppendEntriesReply) :
    (updateIndices rf server args reply).log = rf.log := by
  unfold updateIndices
  split
  · split <;> rfl
  · rfl

/-- The bookkeeping branches leave `lastApplied` untouched. -/
theorem updateIndices_lastApplied (rf : RaftState) (server : Nat)
    (args : AppendEntriesArgs) (reply : AppendEntriesReply) :
    (updateIndices rf server args reply).lastApplied = rf.lastApplied := by
  unfold updateIndices
  split
  · split <;> rfl
  · rfl

/-- The leader-side reply processing (including the commit phase) preserves
the invariant. -/
theorem sendAppendEntriesReply_preserves_Inv (rf : RaftState) (server : Nat)
    (args : AppendEntriesArgs) (reply : AppendEntriesReply) (h : Inv rf) :
    Inv (sendAppendEntriesReply rf server args reply) := by
  unfold sendAppendEntriesReply
  split
  · exact h
  · split
    · exact Inv_of_fields rfl rfl rfl h
    · dsimp only
      cases hscan : commitScan (updateIndices rf server args reply)
          (((updateIndices rf server args reply).getLastLogIndex -
            (updateIndices rf server args reply).commitIndex).toNat) with
      | none =>
        exact Inv_of_fields (updateIndices_log _ _ _ _) (updateIndices_commitIndex _ _ _ _)
          (updateIndices_lastApplied _ _ _ _) h
      | some N =>
        obtain ⟨a1, a2, _, _, _⟩ :=
          commitScan_sound (updateIndices rf server args reply) _ N hscan
        have hla : (updateIndices rf server args reply).lastApplied = rf.lastApplied :=
          updateIndices_lastApplied _ _ _ _
        have hci : (updateIndices rf server args reply).commitIndex = rf.commitIndex :=
          updateIndices_commitIndex _ _ _ _
        unfold Inv
        dsimp only
        constructor
        · have h1 := h.1
          omega
        · show N ≤ ({ updateIndices rf server args reply with commitIndex := N } :
              RaftState).getLastLogIndex
          have hgl : ({ updateIndices rf server args reply with commitIndex := N } :
              RaftState).getLastLogIndex =
              (updateIndices rf server args reply).getLastLogIndex := rfl
          rw [hgl]
          omega

/-- The AppendEntries receiver preserves the invariant provided the
truncate-and-append rewrite does not cut the log below `commitIndex`,
i.e. `commitIndex ≤ prevLogIndex + len(entries)`. -/
theorem AppendEntries_preserves_Inv (rf : RaftState) (args : AppendEntriesArgs)
    (hInv : Inv rf) (hwf : wfLog rf) (hwfe : wfEntries args)
    (hbc : rf.baseIndex ≤ rf.commitIndex)
    (hcp : rf.commitIndex ≤ args.prevLogIndex + args.entries.length) :
    Inv (AppendEntries rf args).1 := by
  unfold AppendEntries
  split
  · exact hInv
  · dsimp only
    split
    · exact Inv_of_fields (stepDown_log _ _) (stepDown_commitIndex _ _)
        (stepDown_lastApplied _ _) hInv
    next hpg =>
      rw [stepDown_getLastLogIndex] at hpg
      have hle : args.prevLogIndex ≤ rf.getLastLogIndex := not_lt.mp hpg
      split
      · exact Inv_of_fields (stepDown_log _ _) (stepDown_commitIndex _ _)
          (stepDown_lastApplied _ _) hInv
      · split
        · have hor : args.entries = [] → rf.baseIndex ≤ args.prevLogIndex := by
            intro he
            rw [he] at hcp
            simp only [List.length_nil, Nat.cast_zero, add_zero] at hcp
            omega
          have hlast : (((stepDown rf args.term).log.take
                (args.prevLogIndex - (stepDown rf args.term).baseIndex + 1).toNat ++
                args.entries).getLast?.getD entryDefault).index =
              args.prevLogIndex + args.entries.length := by
            rw [stepDown_log, stepDown_baseIndex]
            exact newLog_last_index rf args hwf hwfe hor hle
          split
          next hlc =>
            rw [stepDown_commitIndex] at hlc
            unfold Inv RaftState.getLastLogIndex RaftState.lastEntry
            dsimp only
            rw [stepDown_lastApplied, hlast]
            have h1 := hInv.1
            omega
          next hlc =>
            rw [stepDown_commitIndex] at hlc
            unfold Inv RaftState.getLastLogIndex RaftState.lastEntry
            dsimp only
            rw [stepDown_lastApplied, stepDown_commitIndex, hlast]
            have h1 := hInv.1
            omega
        · exact Inv_of_fields (stepDown_log _ _) (stepDown_commitIndex _ _)
            (stepDown_lastApplied _ _) hInv

/-- C3 counterexample: the invariant is not preserved by the AppendEntries
handler.  On a concrete replica with a well-formed log, fully committed and
applied through index 3, a consistent stale heartbeat (`prevLogIndex = 1`,
no entries, term not stale) truncates the log to index 1 and returns
success, leaving `commitIndex = lastApplied = 3 > 1 = lastLogIndex`. -/
theorem C3_counterexample :
    Inv rfC3 ∧ wfLog rfC3 ∧ (AppendEntries rfC3 argsC3).2.success = true ∧
    ¬ Inv (AppendEntries rfC3 argsC3).1 := by
  refine ⟨by decide, by decide, by decide, by decide⟩

/-- C3 amended: `lastApplied ≤ commitIndex ≤ lastLogIndex` is preserved
unconditionally by the RequestVote handler, the applyLog step, the
InstallSnapshot handler (on a well-formed log) and the leader's
AppendEntries reply processing with its commit phase; the AppendEntries
receiver preserves it only when the truncate-and-append rewrite keeps the
log at least as long as `commitIndex`, i.e. when
`commitIndex ≤ prevLogIndex + len(entries)` (with `baseIndex ≤ commitIndex`
and well-formed log and entries) — a stale duplicate AppendEntries that
truncates below `commitIndex` breaks the invariant. -/
theorem C3_invariant_preservation :
    (∀ rf args, Inv rf → Inv (RequestVote rf args).1) ∧
    (∀ rf, Inv rf → Inv (applyLog rf).1) ∧
    (∀ rf args, Inv rf → wfLog rf → Inv (InstallSnapshot rf args).1) ∧
    (∀ rf server args reply, Inv rf → Inv (sendAppendEntriesReply rf server args reply)) ∧
    (∀ rf args, Inv rf → wfLog rf → wfEntries args →
      rf.baseIndex ≤ rf.commitIndex →
      rf.commitIndex ≤ args.prevLogIndex + args.entries.length →
      Inv (AppendEntries rf args).1) :=
  ⟨RequestVote_preserves_Inv, applyLog_preserves_Inv, InstallSnapshot_preserves_Inv,
   sendAppendEntriesReply_preserves_Inv, AppendEntries_preserves_Inv⟩

/-- C3 witness: on a concrete replica receiving a non-truncating
AppendEntries that appends the entry at index 2 and advances the commit
index, the invariant still holds afterwards. -/
theorem C3_witness : Inv (AppendEntries rfW3 argsW3).1 :=
  C3_invariant_preservation.2.2.2.2 rfW3 argsW3 (by decide) (by decide) (by decide)
    (by decide) (by decide)

/-! ## Claim C7: handler success versus wrongLeader -/

/-- C7: a Get or PutAppend handler replies success (`wrongLeader = false`)
iff the submission went to a leader and a result was delivered on the
log-index channel before the 240 ms deadline whose `(clientId, requestId)`
pair matches the submitted operation; in every other case — not leader,
timeout, or mismatched result — it replies `wrongLeader = true`.  The
hypothesis that any delivered result has `OK = true` is justified by the
third conjunct: the apply dispatcher (`applyOp`) only ever produces results
with `OK = true`. -/
theorem C7_handler_wrongLeader :
    (∀ (args : GetArgs) (isLeader : Bool) (delivered : Option Result),
      (∀ r, delivered = some r → r.ok = true) →
      ((GetHandler args isLeader delivered).wrongLeader = false ↔
        (isLeader = true ∧ ∃ r, delivered = some r ∧ isMatch (mkGetOp args) r = true))) ∧
    (∀ (args : PutAppendArgs) (isLeader : Bool) (delivered : Option Result),
      (∀ r, delivered = some r → r.ok = true) →
      ((PutAppendHandler args isLeader delivered).wrongLeader = false ↔
        (isLeader = true ∧ ∃ r, delivered = some r ∧ isMatch (mkPutAppendOp args) r = true))) ∧
    (∀ (kv : KVState) (op : Op), ((applyOp kv op).2).ok = true) := by
  refine ⟨?_, ?_, ?_⟩
  · intro args isLeader delivered hok
    cases isLeader
    · simp [GetHandler, appendEntryToLog, resultDefault]
    · cases delivered with
      | none => simp [GetHandler, appendEntryToLog, resultDefault]
      | some r =>
        by_cases hm : isMatch (mkGetOp args) r = true
        · have hro := hok r rfl
          simp [GetHandler, appendEntryToLog, hm, hro]
        · simp [GetHandler, appendEntryToLog, hm, resultDefault]
  · intro args isLeader delivered hok
    cases isLeader
    · simp [PutAppendHandler, appendEntryToLog, resultDefault]
    · cases delivered with
      | none => simp [PutAppendHandler, appendEntryToLog, resultDefault]
      | some r =>
        by_cases hm : isMatch (mkPutAppendOp args) r = true
        · have hro := hok r rfl
          simp [PutAppendHandler, appendEntryToLog, hm, hro]
        · simp [PutAppendHandler, appendEntryToLog, hm, resultDefault]
  · intro kv op
    unfold applyOp applyOpSwitch
    dsimp only
    by_cases h1 : op.command = "put"
    · simp [h1]
    · by_cases h2 : op.command = "append"
      · simp [h1, h2]
      · by_cases h3 : op.command = "get"
        · cases hdata : assocGet kv.data op.key <;> simp [h1, h2, h3, hdata]
        · simp [h1, h2, h3]

/-- C7 witness: a concrete Get submitted to a leader whose matching result
is delivered in time replies success, and `applyOp` produces an `OK = true`
result on a concrete state. -/
theorem C7_witness :
    (GetHandler argsW7 true (some resultW7)).wrongLeader = false ∧
    ((applyOp kvW7 (mkGetOp argsW7)).2).ok = true := by
  constructor
  · refine (C7_handler_wrongLeader.1 argsW7 true (some resultW7) ?_).mpr ?_
    · intro r h
      injection h with h
      rw [← h]
      rfl
    · exact ⟨rfl, resultW7, rfl, by decide⟩
  · exact C7_handler_wrongLeader.2.2 kvW7 (mkGetOp argsW7)

/-! ## Claim C8: the linearizability checker rejects the stale-read history -/

/-- C8: `CheckOperations(KvModel, history)` returns false on the single-key
history where `Get("k")` returns "v1" strictly after a completed
`Put("k","v2")` with no other write to the key.  Fuel 32 far exceeds the
loop iterations of this two-operation run (the search returns after four
iterations); the result is `some`, so the fuel did not run out. -/
theorem C8_checkOperations_false :
    CheckOperationsFuel 32 KvModel historyC8 = some false := by
  decide

end Sentinel
